import Mathlib

/-!
Verification of the SCDS interpolation core.

Shallow embedding of the Python interpolation engine
(`Algoritmos/interpolacion/python/lagrange.py`, `diferenciasdiv.py`,
`hermite.py`, `trazadorescub.py`, and `Modules/interpolacion.py`) into Lean 4.
Machine floats are modelled as exact rationals, so "agreement within a
floating-point tolerance" in the specification becomes exact equality here.
NumPy arrays are modelled as Lean lists, with out-of-range reads defaulting
to `0` (mirroring the zero-initialised `np.zeros` tables the code fills in).
-/

namespace SCDS

/-- Array indexing `xs[i]`; out-of-range reads default to `0`
(the tables in the source are `np.zeros`-initialised). -/
def nth (xs : List ℚ) (i : ℕ) : ℚ := xs.getD i 0

/-- Nodes are pairwise distinct (`xi` has no duplicated x-values). -/
def DistinctNodes (xi : List ℚ) : Prop :=
  ∀ i < xi.length, ∀ j < xi.length, i ≠ j → nth xi i ≠ nth xi j

/-- Nodes are strictly ascending (the sortedness the spline code requires). -/
def AscNodes (xi : List ℚ) : Prop :=
  ∀ i < xi.length, ∀ j < xi.length, i < j → nth xi i < nth xi j

instance (xi : List ℚ) : Decidable (DistinctNodes xi) := by
  unfold DistinctNodes; infer_instance

instance (xi : List ℚ) : Decidable (AscNodes xi) := by
  unfold AscNodes; infer_instance

/-! ## Lagrange (`lagrange.py`) -/

/-- `lagrange_basis(x, xi, i)`: the loop multiplies `(x - xi[j])/(xi[i] - xi[j])`
over all `j ≠ i` in `range(len(xi))`. -/
def lagrange_basis (x : ℚ) (xi : List ℚ) (i : ℕ) : ℚ :=
  ∏ j ∈ Finset.range xi.length,
    if j ≠ i then (x - nth xi j) / (nth xi i - nth xi j) else 1

/-- `lagrange_interpolation(xi, yi, x)`: `P(x) = Σ yi[i] · Li(x)`. -/
def lagrange_interpolation (xi yi : List ℚ) (x : ℚ) : ℚ :=
  ∑ i ∈ Finset.range xi.length, nth yi i * lagrange_basis x xi i

/-! ## Newton divided differences (`diferenciasdiv.py`) -/

/-- `diferencias_divididas(xi, yi)[i][j]`: the `n × n` table; column `0` is
`yi`, and `tabla[i, j] = (tabla[i+1, j-1] - tabla[i, j-1]) / (xi[i+j] - xi[i])`
is filled for `i < n - j`; entries outside that triangle stay `0`
(`np.zeros` initialisation). -/
def diferencias_divididas (xi yi : List ℚ) : ℕ → ℕ → ℚ
  | i, 0 => if i < xi.length then nth yi i else 0
  | i, j + 1 =>
    if i + (j + 1) < xi.length then
      (diferencias_divididas xi yi (i + 1) j - diferencias_divididas xi yi i j) /
        (nth xi (i + (j + 1)) - nth xi i)
    else 0

/-- `newton_interpolation(xi, yi, x)`: starts from `tabla[0, 0]` and adds
`tabla[0, i] · Π_{k<i} (x - xi[k])`, the running product `producto`
accumulating one factor per loop iteration. -/
def newton_interpolation (xi yi : List ℚ) (x : ℚ) : ℚ :=
  ∑ i ∈ Finset.range xi.length,
    diferencias_divididas xi yi 0 i * ∏ k ∈ Finset.range i, (x - nth xi k)

/-! ## Hermite (`hermite.py`) -/

/-- The duplicated-node array `z` of `hermite_diferencias_divididas`:
`z[0::2] = xi`, `z[1::2] = xi`, so `z[i] = xi[i // 2]`. -/
def hermite_z (xi : List ℚ) (i : ℕ) : ℚ := nth xi (i / 2)

/-- `hermite_diferencias_divididas(xi, yi, dyi)` table (size `2n × 2n`,
`np.zeros`-initialised, out-of-range entries `0`):
column `0` holds `yi` on both copies of each node (`tabla[i, 0] = yi[i // 2]`);
column `1` is `dyi[i // 2]` on even rows (`tabla[0::2, 1] = dyi`) and the
finite difference `(tabla[i+1, 0] - tabla[i, 0]) / (z[i+1] - z[i])` on odd
rows `i ∈ range(1, 2n-1, 2)`; columns `j ≥ 2` follow the divided-difference
recursion over `z` for `i < 2n - j`. -/
def hermite_tabla (xi yi dyi : List ℚ) : ℕ → ℕ → ℚ
  | i, 0 => if i < 2 * xi.length then nth yi (i / 2) else 0
  | i, 1 =>
    if i % 2 = 0 then (if i < 2 * xi.length then nth dyi (i / 2) else 0)
    else if i + 1 < 2 * xi.length then
      (nth yi ((i + 1) / 2) - nth yi (i / 2)) / (hermite_z xi (i + 1) - hermite_z xi i)
    else 0
  | i, j + 2 =>
    if i + (j + 2) < 2 * xi.length then
      (hermite_tabla xi yi dyi (i + 1) (j + 1) - hermite_tabla xi yi dyi i (j + 1)) /
        (hermite_z xi (i + (j + 2)) - hermite_z xi i)
    else 0

/-! ## Cubic splines (`trazadorescub.py`) -/

/-- `h = np.diff(xi)`: `h[i] = xi[i+1] - xi[i]`. -/
def hdiff (xi : List ℚ) (i : ℕ) : ℚ := nth xi (i + 1) - nth xi i

/-- The vector `c` returned by `scipy.linalg.solve(A, b)` in
`trazadores_cubicos_naturales`, characterised by the rows of the assembled
tridiagonal system: natural boundary rows `c[0] = 0`, `c[n-1] = 0`, and the
interior rows for `i ∈ range(1, n-1)`. -/
def solvesNatural (xi yi : List ℚ) (c : ℕ → ℚ) : Prop :=
  c 0 = 0 ∧ c (xi.length - 1) = 0 ∧
  ∀ i < xi.length, 1 ≤ i → i + 1 < xi.length →
    hdiff xi (i - 1) * c (i - 1) + 2 * (hdiff xi (i - 1) + hdiff xi i) * c i +
        hdiff xi i * c (i + 1) =
      3 * ((nth yi (i + 1) - nth yi i) / hdiff xi i -
        (nth yi i - nth yi (i - 1)) / hdiff xi (i - 1))

/-- The vector `c` returned by `scipy.linalg.solve(A, b)` in
`trazadores_cubicos_sujetos`: clamped boundary rows
`2h[0]·c[0] + h[0]·c[1] = 3((y[1]-y[0])/h[0] - dy0)` and
`h[n-2]·c[n-2] + 2h[n-2]·c[n-1] = 3(dyn - (y[n-1]-y[n-2])/h[n-2])`,
with the same interior rows as the natural system. -/
def solvesClamped (xi yi : List ℚ) (dy0 dyn : ℚ) (c : ℕ → ℚ) : Prop :=
  2 * hdiff xi 0 * c 0 + hdiff xi 0 * c 1 =
      3 * ((nth yi 1 - nth yi 0) / hdiff xi 0 - dy0) ∧
  hdiff xi (xi.length - 2) * c (xi.length - 2) +
      2 * hdiff xi (xi.length - 2) * c (xi.length - 1) =
    3 * (dyn - (nth yi (xi.length - 1) - nth yi (xi.length - 2)) / hdiff xi (xi.length - 2)) ∧
  ∀ i < xi.length, 1 ≤ i → i + 1 < xi.length →
    hdiff xi (i - 1) * c (i - 1) + 2 * (hdiff xi (i - 1) + hdiff xi i) * c i +
        hdiff xi i * c (i + 1) =
      3 * ((nth yi (i + 1) - nth yi i) / hdiff xi i -
        (nth yi i - nth yi (i - 1)) / hdiff xi (i - 1))

instance (xi yi : List ℚ) (c : ℕ → ℚ) : Decidable (solvesNatural xi yi c) := by
  unfold solvesNatural; infer_instance

instance (xi yi : List ℚ) (dy0 dyn : ℚ) (c : ℕ → ℚ) :
    Decidable (solvesClamped xi yi dy0 dyn c) := by
  unfold solvesClamped; infer_instance

/-- Segment coefficient rows `[a, b, c, d]` built by both spline
constructors from the solved `c`: `a[i] = yi[i]`,
`b[i] = (yi[i+1]-yi[i])/h[i] - h[i](2c[i]+c[i+1])/3`, the (trimmed) `c[i]`,
and `d[i] = (c[i+1]-c[i])/(3h[i])`. -/
def spline_coef (xi yi : List ℚ) (c : ℕ → ℚ) (i : ℕ) : ℚ × ℚ × ℚ × ℚ :=
  (nth yi i,
   (nth yi (i + 1) - nth yi i) / hdiff xi i - hdiff xi i * (2 * c i + c (i + 1)) / 3,
   c i,
   (c (i + 1) - c i) / (3 * hdiff xi i))

/-- `trazadores_cubicos_naturales(xi, yi)`: the `(n-1) × 4` coefficient
matrix, given the solution `c` of the natural tridiagonal system
(`scipy.linalg.solve` is modelled by the `solvesNatural` characterisation). -/
def trazadores_cubicos_naturales (xi yi : List ℚ) (c : ℕ → ℚ) : ℕ → ℚ × ℚ × ℚ × ℚ :=
  spline_coef xi yi c

/-- `trazadores_cubicos_sujetos(xi, yi, dy0, dyn)`: identical coefficient
formulas, from the solution `c` of the clamped system. -/
def trazadores_cubicos_sujetos (xi yi : List ℚ) (c : ℕ → ℚ) : ℕ → ℚ × ℚ × ℚ × ℚ :=
  spline_coef xi yi c

/-- `np.searchsorted(xi, v)` (default `side='left'`) on a sorted array:
the leftmost insertion index, i.e. the number of entries strictly below `v`. -/
def searchsorted (xi : List ℚ) (v : ℚ) : ℕ :=
  ((Finset.range xi.length).filter (fun i => nth xi i < v)).card

/-- The segment-selection logic shared by the three spline evaluators:
`i = 0` when `x ≤ xi[0]`, `i = len(xi) - 2` when `x ≥ xi[-1]`, otherwise
`i = min(searchsorted(xi, x) - 1, len(coeficientes) - 1)`. -/
def findSegment (xi : List ℚ) (ncoef : ℕ) (x : ℚ) : ℕ :=
  if x ≤ nth xi 0 then 0
  else if nth xi (xi.length - 1) ≤ x then xi.length - 2
  else min (searchsorted xi x - 1) (ncoef - 1)

/-- `S_i(x) = a + b·dx + c·dx² + d·dx³` for one segment row. -/
def segEval (coef : ℕ → ℚ × ℚ × ℚ × ℚ) (i : ℕ) (dx : ℚ) : ℚ :=
  (coef i).1 + (coef i).2.1 * dx + (coef i).2.2.1 * dx ^ 2 + (coef i).2.2.2 * dx ^ 3

/-- `S'_i(x) = b + 2c·dx + 3d·dx²`. -/
def segDeriv (coef : ℕ → ℚ × ℚ × ℚ × ℚ) (i : ℕ) (dx : ℚ) : ℚ :=
  (coef i).2.1 + 2 * (coef i).2.2.1 * dx + 3 * (coef i).2.2.2 * dx ^ 2

/-- `S''_i(x) = 2c + 6d·dx`. -/
def segSecond (coef : ℕ → ℚ × ℚ × ℚ × ℚ) (i : ℕ) (dx : ℚ) : ℚ :=
  2 * (coef i).2.2.1 + 6 * (coef i).2.2.2 * dx

/-- Per-point body of `evaluar_trazadores_cubicos`. -/
def evalSplineAt (xi : List ℚ) (ncoef : ℕ) (coef : ℕ → ℚ × ℚ × ℚ × ℚ) (x : ℚ) : ℚ :=
  segEval coef (findSegment xi ncoef x) (x - nth xi (findSegment xi ncoef x))

/-- Per-point body of `derivada_trazadores_cubicos`. -/
def derivSplineAt (xi : List ℚ) (ncoef : ℕ) (coef : ℕ → ℚ × ℚ × ℚ × ℚ) (x : ℚ) : ℚ :=
  segDeriv coef (findSegment xi ncoef x) (x - nth xi (findSegment xi ncoef x))

/-- Per-point body of `segunda_derivada_trazadores_cubicos`. -/
def secondSplineAt (xi : List ℚ) (ncoef : ℕ) (coef : ℕ → ℚ × ℚ × ℚ × ℚ) (x : ℚ) : ℚ :=
  segSecond coef (findSegment xi ncoef x) (x - nth xi (findSegment xi ncoef x))

/-! ## NumPy scalar/array handling in the spline evaluators

The three evaluators run `x = np.array(x)` *before* testing
`np.isscalar(x)`, so the test is applied to an ndarray. -/

/-- A value as passed by Python callers: a plain float, or an ndarray
(0-dimensional, as produced by `np.array(scalar)`, or 1-dimensional). -/
inductive PyVal where
  | pyFloat (v : ℚ)
  | ndarray0 (v : ℚ)
  | ndarray1 (vs : List ℚ)
deriving DecidableEq

/-- `np.array`: wraps a plain scalar into a 0-d ndarray; ndarrays pass through. -/
def npArray : PyVal → PyVal
  | .pyFloat v => .ndarray0 v
  | v => v

/-- `np.isscalar`: true only for plain Python scalars; every ndarray,
including a 0-d one, is reported as non-scalar. -/
def npIsScalar : PyVal → Bool
  | .pyFloat _ => true
  | _ => false

/-- `np.atleast_1d`. -/
def npAtleast1d : PyVal → List ℚ
  | .pyFloat v => [v]
  | .ndarray0 v => [v]
  | .ndarray1 vs => vs

/-- A value returned to Python callers: an unwrapped scalar
(`resultado[0]`) or a 1-d array (`resultado`). -/
inductive PyRet where
  | scalar (v : ℚ)
  | arr (vs : List ℚ)
deriving DecidableEq

/-- `evaluar_trazadores_cubicos(xi, coeficientes, x)`:
converts `x` with `np.array`, only then records `scalar_input =
np.isscalar(x)`, maps the per-point segment evaluation over
`np.atleast_1d(x)`, and unwraps `resultado[0]` only if `scalar_input`. -/
def evaluar_trazadores_cubicos (xi : List ℚ) (ncoef : ℕ)
    (coef : ℕ → ℚ × ℚ × ℚ × ℚ) (x : PyVal) : PyRet :=
  let xarr := npArray x
  let scalarInput := npIsScalar xarr
  let resultado := (npAtleast1d xarr).map (evalSplineAt xi ncoef coef)
  if scalarInput then .scalar (resultado.getD 0 0) else .arr resultado

/-- `derivada_trazadores_cubicos`, same scalar/array pipeline. -/
def derivada_trazadores_cubicos (xi : List ℚ) (ncoef : ℕ)
    (coef : ℕ → ℚ × ℚ × ℚ × ℚ) (x : PyVal) : PyRet :=
  let xarr := npArray x
  let scalarInput := npIsScalar xarr
  let resultado := (npAtleast1d xarr).map (derivSplineAt xi ncoef coef)
  if scalarInput then .scalar (resultado.getD 0 0) else .arr resultado

/-- `segunda_derivada_trazadores_cubicos`, same scalar/array pipeline. -/
def segunda_derivada_trazadores_cubicos (xi : List ℚ) (ncoef : ℕ)
    (coef : ℕ → ℚ × ℚ × ℚ × ℚ) (x : PyVal) : PyRet :=
  let xarr := npArray x
  let scalarInput := npIsScalar xarr
  let resultado := (npAtleast1d xarr).map (secondSplineAt xi ncoef coef)
  if scalarInput then .scalar (resultado.getD 0 0) else .arr resultado

/-! ## Model selector (`Modules/interpolacion.py`)

`evaluar_precision` builds each leave-one-out training set as
`xi[:i] + xi[i+1:]` (Python-list slicing and concatenation).  Its spline
branch calls `evaluar_spline`, a stale name for
`evaluar_trazadores_cubicos` (the import renames were not propagated);
we embed the evaluator it designates.  `scipy.linalg.solve` on fold `i`
is modelled by a solution `cs i` of that fold's natural system. -/

/-- `xs[:i] + xs[i+1:]` for a Python list `xs`. -/
def looTrain (xs : List ℚ) (i : ℕ) : List ℚ := xs.take i ++ xs.drop (i + 1)

/-- Fold-`i` absolute error of Lagrange: `abs(yReal - y_pred_l)`. -/
def foldErrLagrange (xi yi : List ℚ) (i : ℕ) : ℚ :=
  |nth yi i - lagrange_interpolation (looTrain xi i) (looTrain yi i) (nth xi i)|

/-- Fold-`i` absolute error of Newton. -/
def foldErrNewton (xi yi : List ℚ) (i : ℕ) : ℚ :=
  |nth yi i - newton_interpolation (looTrain xi i) (looTrain yi i) (nth xi i)|

/-- Fold-`i` absolute error of the natural spline: the fold's training set
has `n - 1` nodes, so its coefficient matrix has `n - 2` rows. -/
def foldErrSpline (xi yi : List ℚ) (cs : ℕ → ℕ → ℚ) (i : ℕ) : ℚ :=
  |nth yi i - evalSplineAt (looTrain xi i) (xi.length - 2)
      (trazadores_cubicos_naturales (looTrain xi i) (looTrain yi i) (cs i)) (nth xi i)|

/-- `np.mean(errores[metodo])` for the Lagrange error list. -/
def meanErrLagrange (xi yi : List ℚ) : ℚ :=
  (∑ i ∈ Finset.range xi.length, foldErrLagrange xi yi i) / xi.length

/-- `np.mean` of the Newton error list. -/
def meanErrNewton (xi yi : List ℚ) : ℚ :=
  (∑ i ∈ Finset.range xi.length, foldErrNewton xi yi i) / xi.length

/-- `np.mean` of the spline error list. -/
def meanErrSpline (xi yi : List ℚ) (cs : ℕ → ℕ → ℚ) : ℚ :=
  (∑ i ∈ Finset.range xi.length, foldErrSpline xi yi cs i) / xi.length

/-- `evaluar_precision(xi, yi)`: Python's `min` over the dict keys in
insertion order `lagrange, newton, spline` keeps the current key unless a
later key's mean error is strictly smaller, so the first minimum wins. -/
def evaluar_precision (xi yi : List ℚ) (cs : ℕ → ℕ → ℚ) : String :=
  if meanErrSpline xi yi cs < min (meanErrLagrange xi yi) (meanErrNewton xi yi) then "spline"
  else if meanErrNewton xi yi < meanErrLagrange xi yi then "newton"
  else "lagrange"

/-! Specification-side model of the selector, written from the spec's
words ("fit each method on all points except `i`", "mean absolute error
per method", "ties broken by fixed priority order ... first encountered
minimum wins"), to be compared with `evaluar_precision`. -/

/-- Spec: the training set for fold `i` is the sample list with element
`i` removed. -/
def specTrain (xs : List ℚ) (i : ℕ) : List ℚ := xs.eraseIdx i

/-- Spec: mean over folds of `|yi[i] - prediction_i|`, where `pred i` is the
method fitted on all points except `i` and evaluated at `xi[i]`. -/
def specMean (xi yi : List ℚ) (pred : ℕ → ℚ) : ℚ :=
  (∑ i ∈ Finset.range xi.length, |nth yi i - pred i|) / xi.length

/-- Spec: Lagrange fitted on all points except `i`, evaluated at `xi[i]`. -/
def specPredLagrange (xi yi : List ℚ) (i : ℕ) : ℚ :=
  lagrange_interpolation (specTrain xi i) (specTrain yi i) (nth xi i)

/-- Spec: Newton fitted on all points except `i`, evaluated at `xi[i]`. -/
def specPredNewton (xi yi : List ℚ) (i : ℕ) : ℚ :=
  newton_interpolation (specTrain xi i) (specTrain yi i) (nth xi i)

/-- Spec: the natural spline fitted on all points except `i` (with `cs i`
the solved second-derivative vector of that fold), evaluated at `xi[i]`. -/
def specPredSpline (xi yi : List ℚ) (cs : ℕ → ℕ → ℚ) (i : ℕ) : ℚ :=
  evalSplineAt (specTrain xi i) (xi.length - 2)
    (trazadores_cubicos_naturales (specTrain xi i) (specTrain yi i) (cs i)) (nth xi i)

/-- Spec: first-encountered minimum over an ordered list of
`(method name, mean error)` pairs. -/
def specArgmin (first : String × ℚ) (rest : List (String × ℚ)) : String :=
  (rest.foldl (fun acc p => if p.2 < acc.2 then p else acc) first).1

/-- The matrix `A` assembled by `trazadores_cubicos_naturales`:
`A[0,0] = 1`, `A[n-1,n-1] = 1`, and for interior rows
`A[i,i-1] = h[i-1]`, `A[i,i] = 2(h[i-1]+h[i])`, `A[i,i+1] = h[i]`,
all other entries left `0`. -/
def naturalMatrix (xi : List ℚ) (i j : ℕ) : ℚ :=
  if i = 0 then (if j = 0 then 1 else 0)
  else if i = xi.length - 1 then (if j = xi.length - 1 then 1 else 0)
  else if i + 1 < xi.length then
    (if j = i - 1 then hdiff xi (i - 1)
     else if j = i then 2 * (hdiff xi (i - 1) + hdiff xi i)
     else if j = i + 1 then hdiff xi i
     else 0)
  else 0

/-! ## Polynomial forms of the two interpolants (proof infrastructure)

`newtonPoly xi yi i m` is the Newton form built from table row `i` over the
node window `xi[i..i+m]`; `lagPoly xi yi i m` is Mathlib's Lagrange
interpolant of the same window.  The two are proved equal, which settles
both Newton exactness and Newton/Lagrange agreement. -/

/-- The Newton-form polynomial `Σ_j tabla[i][j] · Π_{k<j} (X - xi[i+k])`. -/
noncomputable def newtonPoly (xi yi : List ℚ) (i m : ℕ) : Polynomial ℚ :=
  ∑ j ∈ Finset.range (m + 1),
    Polynomial.C (diferencias_divididas xi yi i j) *
      ∏ k ∈ Finset.range j, (Polynomial.X - Polynomial.C (nth xi (i + k)))

/-- The unique interpolant of the node window `xi[i..i+m]`. -/
noncomputable def lagPoly (xi yi : List ℚ) (i m : ℕ) : Polynomial ℚ :=
  Lagrange.interpolate (Finset.Ico i (i + m + 1)) (nth xi) (nth yi)

/-! ## Helper lemmas -/

lemma nth_append (xs : List ℚ) (z : ℚ) (k : ℕ) (h : k < xs.length) :
    nth (xs ++ [z]) k = nth xs k :=
  List.getD_append _ _ _ _ h

/-- Appending one node changes no divided-difference entry whose window
lies inside the original nodes. -/
lemma dd_append (xi yi : List ℚ) (xn yn : ℚ) (hlen : yi.length = xi.length) :
    ∀ j i, i + j < xi.length →
      diferencias_divididas (xi ++ [xn]) (yi ++ [yn]) i j =
        diferencias_divididas xi yi i j := by
  intro j
  induction j with
  | zero =>
    intro i hi
    simp only [diferencias_divididas, List.length_append, List.length_singleton]
    rw [if_pos (by omega), if_pos (by omega), nth_append _ _ _ (by omega)]
  | succ j ih =>
    intro i hi
    simp only [diferencias_divididas, List.length_append, List.length_singleton]
    rw [if_pos (by omega), if_pos (by omega), ih (i + 1) (by omega), ih i (by omega),
      nth_append _ _ _ (by omega), nth_append _ _ _ (by omega)]

lemma findSegment_left {xi : List ℚ} {ncoef : ℕ} {x : ℚ} (hx : x ≤ nth xi 0) :
    findSegment xi ncoef x = 0 := by
  simp [findSegment, hx]

lemma findSegment_right {xi : List ℚ} {ncoef : ℕ} {x : ℚ}
    (h01 : nth xi 0 < nth xi (xi.length - 1)) (hx : nth xi (xi.length - 1) ≤ x) :
    findSegment xi ncoef x = xi.length - 2 := by
  simp [findSegment, not_le.2 (lt_of_lt_of_le h01 hx), hx]

lemma segEval_zero (coef : ℕ → ℚ × ℚ × ℚ × ℚ) (i : ℕ) :
    segEval coef i 0 = (coef i).1 := by simp [segEval]

lemma segDeriv_zero (coef : ℕ → ℚ × ℚ × ℚ × ℚ) (i : ℕ) :
    segDeriv coef i 0 = (coef i).2.1 := by simp [segDeriv]

lemma segSecond_zero (coef : ℕ → ℚ × ℚ × ℚ × ℚ) (i : ℕ) :
    segSecond coef i 0 = 2 * (coef i).2.2.1 := by simp [segSecond]

/-- Evaluating segment `i`'s cubic at its right end gives `yi[i+1]`,
for any `c` vector: the `b` and `d` formulas make the spline interpolate
by construction. -/
lemma segEval_right (xi yi : List ℚ) (c : ℕ → ℚ) (i : ℕ) (h : hdiff xi i ≠ 0) :
    segEval (spline_coef xi yi c) i (hdiff xi i) = nth yi (i + 1) := by
  simp only [segEval, spline_coef]
  field_simp
  ring

/-- The second derivative of segment `i` at its right end is `2·c[i+1]`. -/
lemma segSecond_right (xi yi : List ℚ) (c : ℕ → ℚ) (i : ℕ) (h : hdiff xi i ≠ 0) :
    segSecond (spline_coef xi yi c) i (hdiff xi i) = 2 * c (i + 1) := by
  simp only [segSecond, spline_coef]
  field_simp
  ring

/-- The first derivative of segment `i` at its right end. -/
lemma segDeriv_right (xi yi : List ℚ) (c : ℕ → ℚ) (i : ℕ) (h : hdiff xi i ≠ 0) :
    segDeriv (spline_coef xi yi c) i (hdiff xi i) =
      (nth yi (i + 1) - nth yi i) / hdiff xi i + hdiff xi i * (c i + 2 * c (i + 1)) / 3 := by
  simp only [segDeriv, spline_coef]
  field_simp
  ring

/-! ## Claim C9 -/

/-- C9: for every built spline and every scalar query `x`, the three spline
evaluators return a length-1 array rather than an unwrapped scalar: the
scalar check `np.isscalar(x)` runs only after `x = np.array(x)` has turned
`x` into an ndarray, so the unwrapping branch is never taken. -/
theorem C9_scalar_query_returns_singleton_array (xi : List ℚ) (ncoef : ℕ)
    (coef : ℕ → ℚ × ℚ × ℚ × ℚ) (v : ℚ) :
    evaluar_trazadores_cubicos xi ncoef coef (.pyFloat v) =
        .arr [evalSplineAt xi ncoef coef v] ∧
    derivada_trazadores_cubicos xi ncoef coef (.pyFloat v) =
        .arr [derivSplineAt xi ncoef coef v] ∧
    segunda_derivada_trazadores_cubicos xi ncoef coef (.pyFloat v) =
        .arr [secondSplineAt xi ncoef coef v] :=
  ⟨rfl, rfl, rfl⟩

/-! ## Claim C10 -/

/-- C10: for Python-list inputs `xi, yi` of equal length `n` and any fold
index `i < n`, the training sets `xi[:i] + xi[i+1:]` and `yi[:i] + yi[i+1:]`
built by `evaluar_precision` are exactly the original sequences with element
`i` removed, in the original order, of length `n - 1`. -/
theorem C10_loo_training_sets_on_lists (xi yi : List ℚ) (i : ℕ)
    (hlen : yi.length = xi.length) (hi : i < xi.length) :
    looTrain xi i = xi.eraseIdx i ∧ looTrain yi i = yi.eraseIdx i ∧
    (looTrain xi i).length = xi.length - 1 ∧
    (looTrain yi i).length = xi.length - 1 := by
  refine ⟨(List.eraseIdx_eq_take_drop_succ xi i).symm,
    (List.eraseIdx_eq_take_drop_succ yi i).symm, ?_, ?_⟩ <;>
    simp [looTrain] <;> omega

/-- Witness for C10 at a concrete input. -/
theorem C10_witness :
    looTrain [10, 20, 30] 1 = List.eraseIdx [10, 20, 30] 1 ∧
    looTrain [1, 2, 3] 1 = List.eraseIdx [1, 2, 3] 1 ∧
    (looTrain [10, 20, 30] 1).length = 3 - 1 ∧
    (looTrain [1, 2, 3] 1).length = 3 - 1 := by
  have h := C10_loo_training_sets_on_lists [10, 20, 30] [1, 2, 3] 1 (by decide) (by decide)
  simpa using h

/-! ## Claim C5 (corrected) -/

/-- C5 counterexample: on `xi = [0,1]`, `yi = [0,5]`, `dyi = [2,3]` the
odd-indexed first-order entry `tabla[1, 1]` is the finite difference
`(yi[1] - yi[0]) / (xi[1] - xi[0]) = 5`, which is none of the supplied
derivatives `dyi = [2,3]` — so odd-indexed first-order entries are *not*
seeded from `dyi`; the even-indexed ones are. -/
theorem C5_counterexample :
    hermite_tabla [0, 1] [0, 5] [2, 3] 1 1 = 5 ∧
    ¬ ((5 : ℚ) ∈ ([2, 3] : List ℚ)) ∧
    hermite_tabla [0, 1] [0, 5] [2, 3] 0 1 = nth [2, 3] 0 := by
  refine ⟨?_, by decide, ?_⟩ <;> norm_num [hermite_tabla, hermite_z, nth]

/-- C5 (amended): in the Hermite table over duplicated nodes `z`, the
*even*-indexed first-order entries `tabla[i, 1]` are seeded directly from
the supplied derivatives (`tabla[i, 1] = dyi[i // 2]`), the odd-indexed
first-order entries below the last row are finite differences over
consecutive distinct duplicated nodes, every column-`j` entry with `j ≥ 2`
inside the table follows the standard recursive divided-difference formula
over `z`, and column `0` carries `yi` on both copies of each node. -/
theorem C5_hermite_table_seeding (xi yi dyi : List ℚ)
    (hy : yi.length = xi.length) (hd : dyi.length = xi.length) :
    (∀ i < 2 * xi.length, i % 2 = 0 →
      hermite_tabla xi yi dyi i 1 = nth dyi (i / 2)) ∧
    (∀ i, i + 1 < 2 * xi.length → i % 2 = 1 →
      hermite_tabla xi yi dyi i 1 =
        (nth yi ((i + 1) / 2) - nth yi (i / 2)) /
          (hermite_z xi (i + 1) - hermite_z xi i)) ∧
    (∀ i j, i + (j + 2) < 2 * xi.length →
      hermite_tabla xi yi dyi i (j + 2) =
        (hermite_tabla xi yi dyi (i + 1) (j + 1) - hermite_tabla xi yi dyi i (j + 1)) /
          (hermite_z xi (i + (j + 2)) - hermite_z xi i)) ∧
    (∀ i < 2 * xi.length, hermite_tabla xi yi dyi i 0 = nth yi (i / 2)) := by
  refine ⟨fun i hi he => ?_, fun i hi ho => ?_, fun i j hij => ?_, fun i hi => ?_⟩
  · simp [hermite_tabla, he, hi]
  · have : ¬ (i % 2 = 0) := by omega
    simp [hermite_tabla, this, hi]
  · simp [hermite_tabla, hij]
  · simp [hermite_tabla, hi]

/-- Witness for C5 at a concrete input: the even row `0` is seeded from
`dyi[0]`. -/
theorem C5_witness : hermite_tabla [0, 1] [0, 5] [2, 3] 0 1 = nth [2, 3] (0 / 2) :=
  (C5_hermite_table_seeding [0, 1] [0, 5] [2, 3] rfl rfl).1 0 (by decide) (by decide)

/-! ## Claim C8 -/

/-- C8: appending one fresh node `(x_n, y_n)` to `n` pairwise-distinct
nodes leaves the first `n` entries of the first row of the
divided-difference table unchanged, so the existing Newton coefficients
are stable under incremental extension. -/
theorem C8_incremental_table_extension (xi yi : List ℚ) (xn yn : ℚ)
    (hlen : yi.length = xi.length)
    (hdist : DistinctNodes (xi ++ [xn])) :
    ∀ j < xi.length,
      diferencias_divididas (xi ++ [xn]) (yi ++ [yn]) 0 j =
        diferencias_divididas xi yi 0 j :=
  fun j hj => dd_append xi yi xn yn hlen j 0 (by omega)

/-- Witness for C8 at a concrete input. -/
theorem C8_witness :
    diferencias_divididas ([0, 1] ++ [2]) ([5, 7] ++ [4]) 0 1 =
      diferencias_divididas [0, 1] [5, 7] 0 1 :=
  C8_incremental_table_extension [0, 1] [5, 7] 2 4 rfl (by decide) 1 (by decide)

/-! ## Claim C3 (code bug) -/

/-- C3: the leave-one-out fold `i = 0` of `evaluar_precision` on
`xi = [0, 1, 1, 1, 2]` trains the spline on the nodes `[1, 1, 1, 2]`,
whose natural tridiagonal matrix has an all-zero interior row (the
triple node makes `h[0] = h[1] = 0`), hence determinant `0`:
`scipy.linalg.solve` raises `LinAlgError` there, and `evaluar_precision`
has no handler, so the exception propagates to the caller instead of the
method being disqualified as the claim requires. -/
theorem C3_fold_failure_not_guarded :
    looTrain [0, 1, 1, 1, 2] 0 = [1, 1, 1, 2] ∧
    Matrix.det (Matrix.of fun i j : Fin 4 =>
      naturalMatrix (looTrain [0, 1, 1, 1, 2] 0) i.val j.val) = 0 := by
  refine ⟨rfl, Matrix.det_eq_zero_of_row_eq_zero 1 fun j => ?_⟩
  show naturalMatrix (looTrain [0, 1, 1, 1, 2] 0) 1 j.val = 0
  fin_cases j <;> norm_num [naturalMatrix, hdiff, nth, looTrain]

/-! ## Claim C7 -/

/-- C7: the spline evaluators pick the owning segment by (binary) search
over `xi`; every query `x ≤ xi[0]` uses segment `0`, every query
`x ≥ xi[-1]` uses the final segment `len(xi) - 2`, and evaluation and
differentiation just apply the selected segment's cubic at `x - xi[i]` —
total functions, no out-of-range error, no refit. -/
theorem C7_extrapolation_by_boundary_segment (xi : List ℚ) (ncoef : ℕ)
    (coef : ℕ → ℚ × ℚ × ℚ × ℚ) (x : ℚ) :
    (x ≤ nth xi 0 → findSegment xi ncoef x = 0) ∧
    (nth xi 0 < nth xi (xi.length - 1) → nth xi (xi.length - 1) ≤ x →
      findSegment xi ncoef x = xi.length - 2) ∧
    evaluar_trazadores_cubicos xi ncoef coef (.pyFloat x) =
      .arr [segEval coef (findSegment xi ncoef x) (x - nth xi (findSegment xi ncoef x))] ∧
    derivada_trazadores_cubicos xi ncoef coef (.pyFloat x) =
      .arr [segDeriv coef (findSegment xi ncoef x) (x - nth xi (findSegment xi ncoef x))] :=
  ⟨fun hx => findSegment_left hx, fun h01 hx => findSegment_right h01 hx, rfl, rfl⟩

/-- Witness for C7 at concrete inputs on both extrapolation sides. -/
theorem C7_witness :
    findSegment [0, 1, 2] 2 (-1) = 0 ∧ findSegment [0, 1, 2] 2 5 = 3 - 2 := by
  constructor
  · exact (C7_extrapolation_by_boundary_segment [0, 1, 2] 2 (fun _ => (1, 1, 1, 1)) (-1)).1
      (by norm_num [nth])
  · have h := (C7_extrapolation_by_boundary_segment [0, 1, 2] 2 (fun _ => (1, 1, 1, 1)) 5).2.1
      (by norm_num [nth]) (by norm_num [nth])
    simpa using h

/-! ## Claim C6 -/

/-- C6: natural splines have vanishing second derivative at both end
nodes, and clamped splines reproduce the caller-supplied end slopes
`dy0`, `dyn` at the first and last node. -/
theorem C6_spline_boundary_conditions (xi yi : List ℚ) (c cC : ℕ → ℚ) (dy0 dyn : ℚ)
    (hasc : AscNodes xi) (hn : 3 ≤ xi.length)
    (hnat : solvesNatural xi yi c)
    (hcl : solvesClamped xi yi dy0 dyn cC) :
    segunda_derivada_trazadores_cubicos xi (xi.length - 1)
        (trazadores_cubicos_naturales xi yi c) (.pyFloat (nth xi 0)) = .arr [0] ∧
    segunda_derivada_trazadores_cubicos xi (xi.length - 1)
        (trazadores_cubicos_naturales xi yi c)
        (.pyFloat (nth xi (xi.length - 1))) = .arr [0] ∧
    derivada_trazadores_cubicos xi (xi.length - 1)
        (trazadores_cubicos_sujetos xi yi cC) (.pyFloat (nth xi 0)) = .arr [dy0] ∧
    derivada_trazadores_cubicos xi (xi.length - 1)
        (trazadores_cubicos_sujetos xi yi cC)
        (.pyFloat (nth xi (xi.length - 1))) = .arr [dyn] := by
  have e1 : xi.length - 2 + 1 = xi.length - 1 := by omega
  have h01 : nth xi 0 < nth xi (xi.length - 1) :=
    hasc 0 (by omega) (xi.length - 1) (by omega) (by omega)
  have hlast : hdiff xi (xi.length - 2) ≠ 0 := by
    have : nth xi (xi.length - 2) < nth xi (xi.length - 1) :=
      hasc (xi.length - 2) (by omega) (xi.length - 1) (by omega) (by omega)
    unfold hdiff
    rw [e1]
    exact sub_ne_zero.2 (ne_of_gt this)
  have hdx : nth xi (xi.length - 1) - nth xi (xi.length - 2) = hdiff xi (xi.length - 2) := by
    unfold hdiff; rw [e1]
  refine ⟨?_, ?_, ?_, ?_⟩
  · show PyRet.arr [secondSplineAt xi (xi.length - 1)
      (trazadores_cubicos_naturales xi yi c) (nth xi 0)] = PyRet.arr [0]
    have : secondSplineAt xi (xi.length - 1)
        (trazadores_cubicos_naturales xi yi c) (nth xi 0) = 0 := by
      unfold secondSplineAt
      rw [findSegment_left (le_refl _), sub_self, segSecond_zero]
      show 2 * c 0 = 0
      rw [hnat.1, mul_zero]
    rw [this]
  · show PyRet.arr [secondSplineAt xi (xi.length - 1)
      (trazadores_cubicos_naturales xi yi c) (nth xi (xi.length - 1))] = PyRet.arr [0]
    have : secondSplineAt xi (xi.length - 1)
        (trazadores_cubicos_naturales xi yi c) (nth xi (xi.length - 1)) = 0 := by
      unfold secondSplineAt
      rw [findSegment_right h01 (le_refl _), hdx]
      show segSecond (spline_coef xi yi c) (xi.length - 2) (hdiff xi (xi.length - 2)) = 0
      rw [segSecond_right xi yi c _ hlast, e1, hnat.2.1, mul_zero]
    rw [this]
  · show PyRet.arr [derivSplineAt xi (xi.length - 1)
      (trazadores_cubicos_sujetos xi yi cC) (nth xi 0)] = PyRet.arr [dy0]
    have : derivSplineAt xi (xi.length - 1)
        (trazadores_cubicos_sujetos xi yi cC) (nth xi 0) = dy0 := by
      unfold derivSplineAt
      rw [findSegment_left (le_refl _), sub_self, segDeriv_zero]
      show (nth yi (0 + 1) - nth yi 0) / hdiff xi 0 -
        hdiff xi 0 * (2 * cC 0 + cC (0 + 1)) / 3 = dy0
      have h := hcl.1
      linear_combination (-1/3 : ℚ) * h
    rw [this]
  · show PyRet.arr [derivSplineAt xi (xi.length - 1)
      (trazadores_cubicos_sujetos xi yi cC) (nth xi (xi.length - 1))] = PyRet.arr [dyn]
    have : derivSplineAt xi (xi.length - 1)
        (trazadores_cubicos_sujetos xi yi cC) (nth xi (xi.length - 1)) = dyn := by
      unfold derivSplineAt
      rw [findSegment_right h01 (le_refl _), hdx]
      show segDeriv (spline_coef xi yi cC) (xi.length - 2) (hdiff xi (xi.length - 2)) = dyn
      rw [segDeriv_right xi yi cC _ hlast, e1]
      have h := hcl.2.1
      linear_combination (1/3 : ℚ) * h
    rw [this]

/-- Witness for C6: the concrete clamped spline on `xi = [0,1,2]`,
`yi = [0,3,0]`, `dy0 = 3`, `dyn = -3` reproduces the right end slope. -/
theorem C6_witness :
    derivada_trazadores_cubicos [0, 1, 2] 2
      (trazadores_cubicos_sujetos [0, 1, 2] [0, 3, 0]
        (fun i => if i = 1 then -6 else 3))
      (.pyFloat (nth [0, 1, 2] 2)) = .arr [-3] := by
  have h := C6_spline_boundary_conditions [0, 1, 2] [0, 3, 0]
    (fun i => if i = 1 then -9/2 else 0) (fun i => if i = 1 then -6 else 3) 3 (-3)
    (by decide) (by norm_num)
    (by
      refine ⟨rfl, rfl, fun i hi h1 h2 => ?_⟩
      simp only [List.length_cons, List.length_nil] at h2
      have h3 : i = 1 := by omega
      subst h3
      norm_num [hdiff, nth])
    (by
      refine ⟨?_, ?_, fun i hi h1 h2 => ?_⟩
      · norm_num [hdiff, nth]
      · norm_num [hdiff, nth]
      · simp only [List.length_cons, List.length_nil] at h2
        have h3 : i = 1 := by omega
        subst h3
        norm_num [hdiff, nth])
  exact h.2.2.2

/-! ## Claim C2 -/

/-- The fold-construction expression of `evaluar_precision` is removal of
element `i`. -/
lemma looTrain_eq_specTrain : looTrain = specTrain := by
  funext xs i
  exact (List.eraseIdx_eq_take_drop_succ xs i).symm

/-- Python's `min` over the ordered keys equals the spec's
first-encountered-minimum fold. -/
lemma ifchain_eq_specArgmin (mL mN mS : ℚ) :
    (if mS < min mL mN then "spline" else if mN < mL then "newton" else "lagrange") =
      specArgmin ("lagrange", mL) [("newton", mN), ("spline", mS)] := by
  simp only [specArgmin, List.foldl]
  by_cases h1 : mN < mL
  · rw [min_eq_right (le_of_lt h1)]
    by_cases h2 : mS < mN <;> simp [h1, h2]
  · rw [min_eq_left (not_lt.1 h1)]
    by_cases h2 : mS < mL <;> simp [h1, h2]

/-- C2: on every input with all folds well-posed, `evaluar_precision`
returns the first-encountered minimum, in the fixed priority order
Lagrange, Newton, Spline, of the per-method means over folds `i` of
`|yi[i] - prediction_i|`, where `prediction_i` is the method fitted on all
points except `i` and evaluated at `xi[i]`. -/
theorem C2_model_selection_argmin (xi yi : List ℚ) (cs : ℕ → ℕ → ℚ)
    (hlen : yi.length = xi.length)
    (hwell : ∀ i < xi.length, solvesNatural (looTrain xi i) (looTrain yi i) (cs i)) :
    evaluar_precision xi yi cs =
      specArgmin ("lagrange", specMean xi yi (specPredLagrange xi yi))
        [("newton", specMean xi yi (specPredNewton xi yi)),
         ("spline", specMean xi yi (specPredSpline xi yi cs))] := by
  have hL : meanErrLagrange xi yi = specMean xi yi (specPredLagrange xi yi) := by
    simp only [meanErrLagrange, specMean, foldErrLagrange, specPredLagrange,
      looTrain_eq_specTrain]
  have hN : meanErrNewton xi yi = specMean xi yi (specPredNewton xi yi) := by
    simp only [meanErrNewton, specMean, foldErrNewton, specPredNewton,
      looTrain_eq_specTrain]
  have hS : meanErrSpline xi yi cs = specMean xi yi (specPredSpline xi yi cs) := by
    simp only [meanErrSpline, specMean, foldErrSpline, specPredSpline,
      trazadores_cubicos_naturales, looTrain_eq_specTrain]
  rw [evaluar_precision, hL, hN, hS]
  exact ifchain_eq_specArgmin _ _ _

/-- Witness for C2 at a concrete input. -/
theorem C2_witness :
    evaluar_precision [0, 1, 2] [1, 2, 3] (fun _ _ => 0) =
      specArgmin ("lagrange", specMean [0, 1, 2] [1, 2, 3]
          (specPredLagrange [0, 1, 2] [1, 2, 3]))
        [("newton", specMean [0, 1, 2] [1, 2, 3]
            (specPredNewton [0, 1, 2] [1, 2, 3])),
         ("spline", specMean [0, 1, 2] [1, 2, 3]
            (specPredSpline [0, 1, 2] [1, 2, 3] (fun _ _ => 0)))] := by
  refine C2_model_selection_argmin [0, 1, 2] [1, 2, 3] (fun _ _ => 0) rfl ?_
  intro i hi
  simp only [List.length_cons, List.length_nil] at hi
  interval_cases i <;>
    exact ⟨rfl, rfl, fun k hk h1 h2 => by
      norm_num [looTrain] at h2
      omega⟩

/-! ## Newton form = Lagrange interpolant -/

lemma asc_distinct {xi : List ℚ} (hasc : AscNodes xi) : DistinctNodes xi := by
  intro i hi j hj hne
  rcases Nat.lt_or_ge i j with h | h
  · exact ne_of_lt (hasc i hi j hj h)
  · have h2 : j < i := by omega
    exact (ne_of_lt (hasc j hj i hi h2)).symm

lemma injOn_nth (xi : List ℚ) (hd : DistinctNodes xi) (s : Finset ℕ)
    (hs : ∀ k ∈ s, k < xi.length) : Set.InjOn (nth xi) ↑s := by
  intro a ha b hb hab
  by_contra hne
  exact hd a (hs a (Finset.mem_coe.1 ha)) b (hs b (Finset.mem_coe.1 hb)) hne hab

lemma card_Ico_window (i m : ℕ) : (Finset.Ico i (i + m + 1)).card = m + 1 := by
  rw [Nat.card_Ico]
  omega

lemma lagPoly_zero (xi yi : List ℚ) (i : ℕ) :
    lagPoly xi yi i 0 = Polynomial.C (nth yi i) := by
  rw [lagPoly, Nat.Ico_succ_singleton]
  exact Lagrange.interpolate_singleton _

lemma window_subset {xi : List ℚ} {i m : ℕ} (hm : i + m < xi.length) :
    ∀ k ∈ Finset.Ico i (i + m + 1), k < xi.length := by
  intro k hk
  rw [Finset.mem_Ico] at hk
  omega

lemma lagPoly_eval_node (xi yi : List ℚ) (hd : DistinctNodes xi) {i m t : ℕ}
    (hm : i + m < xi.length) (ht1 : i ≤ t) (ht2 : t < i + m + 1) :
    (lagPoly xi yi i m).eval (nth xi t) = nth yi t :=
  Lagrange.eval_interpolate_at_node (nth yi)
    (injOn_nth xi hd _ (window_subset hm)) (Finset.mem_Ico.2 ⟨ht1, ht2⟩)

lemma lagPoly_degree (xi yi : List ℚ) (hd : DistinctNodes xi) {i m : ℕ}
    (hm : i + m < xi.length) :
    (lagPoly xi yi i m).degree < ((m + 1 : ℕ) : WithBot ℕ) := by
  have h := Lagrange.degree_interpolate_lt (v := nth xi) (nth yi)
    (injOn_nth xi hd _ (window_subset hm))
  rwa [card_Ico_window] at h

/-- Peeling the interpolant at the left end of the window: the interpolant
on `xi[i..i+m+1]` is its leading term times the left nodal polynomial plus
the interpolant on `xi[i..i+m]`. -/
lemma lagPoly_decomp_left (xi yi : List ℚ) (hd : DistinctNodes xi) (i m : ℕ)
    (hm : i + m + 1 < xi.length) :
    lagPoly xi yi i (m + 1) =
      lagPoly xi yi i m +
        Polynomial.C ((lagPoly xi yi i (m + 1)).coeff (m + 1)) *
          Lagrange.nodal (Finset.Ico i (i + m + 1)) (nth xi) := by
  have hNnat : (Lagrange.nodal (Finset.Ico i (i + m + 1)) (nth xi)).natDegree = m + 1 := by
    rw [Lagrange.natDegree_nodal, card_Ico_window]
  have hNdeg : (Lagrange.nodal (Finset.Ico i (i + m + 1)) (nth xi)).degree =
      ((m + 1 : ℕ) : WithBot ℕ) := by
    rw [Lagrange.degree_nodal, card_Ico_window]
  have hPdeg : (lagPoly xi yi i (m + 1)).degree < ((m + 2 : ℕ) : WithBot ℕ) :=
    lagPoly_degree xi yi hd (by omega)
  have key : lagPoly xi yi i (m + 1) -
      Polynomial.C ((lagPoly xi yi i (m + 1)).coeff (m + 1)) *
        Lagrange.nodal (Finset.Ico i (i + m + 1)) (nth xi) = lagPoly xi yi i m := by
    apply Lagrange.eq_interpolate_of_eval_eq (s := Finset.Ico i (i + m + 1)) (nth yi)
      (injOn_nth xi hd _ (window_subset (by omega)))
    · rw [card_Ico_window, Polynomial.degree_lt_iff_coeff_zero]
      intro b hb
      rw [Polynomial.coeff_sub, Polynomial.coeff_C_mul]
      rcases eq_or_lt_of_le hb with hb1 | hb2
      · rw [← hb1]
        have h1 : (Lagrange.nodal (Finset.Ico i (i + m + 1)) (nth xi)).coeff (m + 1) = 1 := by
          have h2 := (Lagrange.nodal_monic (s := Finset.Ico i (i + m + 1))
            (v := nth xi)).coeff_natDegree
          rwa [hNnat] at h2
        rw [h1, mul_one, sub_self]
      · have h1 : (lagPoly xi yi i (m + 1)).coeff b = 0 := by
          apply Polynomial.coeff_eq_zero_of_degree_lt
          exact lt_of_lt_of_le hPdeg (by exact_mod_cast hb2)
        have h2 : (Lagrange.nodal (Finset.Ico i (i + m + 1)) (nth xi)).coeff b = 0 := by
          apply Polynomial.coeff_eq_zero_of_degree_lt
          rw [hNdeg]
          exact_mod_cast hb2
        rw [h1, h2, mul_zero, sub_self]
    · intro t ht
      rw [Finset.mem_Ico] at ht
      rw [Polynomial.eval_sub, Polynomial.eval_mul, Polynomial.eval_C,
        Lagrange.eval_nodal_at_node (Finset.mem_Ico.2 ht),
        lagPoly_eval_node xi yi hd (m := m + 1) (by omega) ht.1 (by omega),
        mul_zero, sub_zero]
  calc lagPoly xi yi i (m + 1) = lagPoly xi yi i (m + 1) -
        Polynomial.C ((lagPoly xi yi i (m + 1)).coeff (m + 1)) *
          Lagrange.nodal (Finset.Ico i (i + m + 1)) (nth xi) +
        Polynomial.C ((lagPoly xi yi i (m + 1)).coeff (m + 1)) *
          Lagrange.nodal (Finset.Ico i (i + m + 1)) (nth xi) := by ring
    _ = _ := by rw [key]

/-- The window of `lagPoly xi yi (i+1) m` written with right endpoint
`i + m + 2`. -/
lemma lagPoly_shift (xi yi : List ℚ) (i m : ℕ) :
    lagPoly xi yi (i + 1) m =
      Lagrange.interpolate (Finset.Ico (i + 1) (i + m + 2)) (nth xi) (nth yi) := by
  have e : i + 1 + m + 1 = i + m + 2 := by omega
  rw [lagPoly, e]

/-- Peeling the interpolant at the right end of the window. -/
lemma lagPoly_decomp_right (xi yi : List ℚ) (hd : DistinctNodes xi) (i m : ℕ)
    (hm : i + m + 1 < xi.length) :
    lagPoly xi yi i (m + 1) =
      lagPoly xi yi (i + 1) m +
        Polynomial.C ((lagPoly xi yi i (m + 1)).coeff (m + 1)) *
          Lagrange.nodal (Finset.Ico (i + 1) (i + m + 2)) (nth xi) := by
  have hcard : (Finset.Ico (i + 1) (i + m + 2)).card = m + 1 := by
    rw [Nat.card_Ico]
    omega
  have hNnat : (Lagrange.nodal (Finset.Ico (i + 1) (i + m + 2)) (nth xi)).natDegree = m + 1 := by
    rw [Lagrange.natDegree_nodal, hcard]
  have hNdeg : (Lagrange.nodal (Finset.Ico (i + 1) (i + m + 2)) (nth xi)).degree =
      ((m + 1 : ℕ) : WithBot ℕ) := by
    rw [Lagrange.degree_nodal, hcard]
  have hPdeg : (lagPoly xi yi i (m + 1)).degree < ((m + 2 : ℕ) : WithBot ℕ) :=
    lagPoly_degree xi yi hd (by omega)
  have key : lagPoly xi yi i (m + 1) -
      Polynomial.C ((lagPoly xi yi i (m + 1)).coeff (m + 1)) *
        Lagrange.nodal (Finset.Ico (i + 1) (i + m + 2)) (nth xi) =
      Lagrange.interpolate (Finset.Ico (i + 1) (i + m + 2)) (nth xi) (nth yi) := by
    apply Lagrange.eq_interpolate_of_eval_eq (s := Finset.Ico (i + 1) (i + m + 2)) (nth yi)
      (injOn_nth xi hd _ (fun k hk => by rw [Finset.mem_Ico] at hk; omega))
    · rw [hcard, Polynomial.degree_lt_iff_coeff_zero]
      intro b hb
      rw [Polynomial.coeff_sub, Polynomial.coeff_C_mul]
      rcases eq_or_lt_of_le hb with hb1 | hb2
      · rw [← hb1]
        have h1 : (Lagrange.nodal (Finset.Ico (i + 1) (i + m + 2)) (nth xi)).coeff (m + 1) = 1 := by
          have h2 := (Lagrange.nodal_monic (s := Finset.Ico (i + 1) (i + m + 2))
            (v := nth xi)).coeff_natDegree
          rwa [hNnat] at h2
        rw [h1, mul_one, sub_self]
      · have h1 : (lagPoly xi yi i (m + 1)).coeff b = 0 := by
          apply Polynomial.coeff_eq_zero_of_degree_lt
          exact lt_of_lt_of_le hPdeg (by exact_mod_cast hb2)
        have h2 : (Lagrange.nodal (Finset.Ico (i + 1) (i + m + 2)) (nth xi)).coeff b = 0 := by
          apply Polynomial.coeff_eq_zero_of_degree_lt
          rw [hNdeg]
          exact_mod_cast hb2
        rw [h1, h2, mul_zero, sub_self]
    · intro t ht
      rw [Finset.mem_Ico] at ht
      rw [Polynomial.eval_sub, Polynomial.eval_mul, Polynomial.eval_C,
        Lagrange.eval_nodal_at_node (Finset.mem_Ico.2 ht),
        lagPoly_eval_node xi yi hd (m := m + 1) (by omega) (by omega) (by omega),
        mul_zero, sub_zero]
  rw [← lagPoly_shift] at key
  calc lagPoly xi yi i (m + 1) = lagPoly xi yi i (m + 1) -
        Polynomial.C ((lagPoly xi yi i (m + 1)).coeff (m + 1)) *
          Lagrange.nodal (Finset.Ico (i + 1) (i + m + 2)) (nth xi) +
        Polynomial.C ((lagPoly xi yi i (m + 1)).coeff (m + 1)) *
          Lagrange.nodal (Finset.Ico (i + 1) (i + m + 2)) (nth xi) := by ring
    _ = _ := by rw [key]

/-- Main induction: over any window of distinct nodes, the leading
coefficient of the interpolant is the divided difference of the window,
and the Newton form equals the interpolant. -/
lemma lag_newton_main (xi yi : List ℚ) (hd : DistinctNodes xi) :
    ∀ m i, i + m < xi.length →
      (lagPoly xi yi i m).coeff m = diferencias_divididas xi yi i m ∧
      newtonPoly xi yi i m = lagPoly xi yi i m := by
  intro m
  induction m with
  | zero =>
    intro i hi
    have h1 : lagPoly xi yi i 0 = Polynomial.C (nth yi i) := lagPoly_zero xi yi i
    constructor
    · rw [h1, Polynomial.coeff_C_zero]
      simp only [diferencias_divididas]
      rw [if_pos (by omega)]
    · rw [newtonPoly, Finset.sum_range_one, Finset.prod_range_zero, mul_one, h1]
      simp only [diferencias_divididas]
      rw [if_pos (by omega)]
  | succ m ih =>
    intro i hm
    have hdl := lagPoly_decomp_left xi yi hd i m (by omega)
    have hdr := lagPoly_decomp_right xi yi hd i m (by omega)
    have hL : Lagrange.nodal (Finset.Ico i (i + m + 1)) (nth xi) =
        (Polynomial.X - Polynomial.C (nth xi i)) *
          Lagrange.nodal (Finset.Ico (i + 1) (i + m + 1)) (nth xi) := by
      rw [Lagrange.nodal_eq, Lagrange.nodal_eq]
      exact Finset.prod_eq_prod_Ico_succ_bot (by omega) _
    have hR : Lagrange.nodal (Finset.Ico (i + 1) (i + m + 2)) (nth xi) =
        Lagrange.nodal (Finset.Ico (i + 1) (i + m + 1)) (nth xi) *
          (Polynomial.X - Polynomial.C (nth xi (i + m + 1))) := by
      rw [Lagrange.nodal_eq, Lagrange.nodal_eq]
      exact Finset.prod_Ico_succ_top (by omega) _
    have hMcard : (Finset.Ico (i + 1) (i + m + 1)).card = m := by
      rw [Nat.card_Ico]
      omega
    have hMnat : (Lagrange.nodal (Finset.Ico (i + 1) (i + m + 1)) (nth xi)).natDegree = m := by
      rw [Lagrange.natDegree_nodal, hMcard]
    have hMcoeff : (Lagrange.nodal (Finset.Ico (i + 1) (i + m + 1)) (nth xi)).coeff m = 1 := by
      have h2 := (Lagrange.nodal_monic (s := Finset.Ico (i + 1) (i + m + 1))
        (v := nth xi)).coeff_natDegree
      rwa [hMnat] at h2
    have hsub : lagPoly xi yi (i + 1) m - lagPoly xi yi i m =
        Polynomial.C ((lagPoly xi yi i (m + 1)).coeff (m + 1)) *
          (Polynomial.C (nth xi (i + m + 1) - nth xi i) *
            Lagrange.nodal (Finset.Ico (i + 1) (i + m + 1)) (nth xi)) := by
      have e2 : lagPoly xi yi (i + 1) m - lagPoly xi yi i m =
          Polynomial.C ((lagPoly xi yi i (m + 1)).coeff (m + 1)) *
            (Lagrange.nodal (Finset.Ico i (i + m + 1)) (nth xi) -
             Lagrange.nodal (Finset.Ico (i + 1) (i + m + 2)) (nth xi)) := by
        linear_combination -(hdl.symm.trans hdr)
      rw [e2, hL, hR, Polynomial.C_sub]
      ring
    have hIH1 := ih i (by omega)
    have hIH2 := ih (i + 1) (by omega)
    have hkey : diferencias_divididas xi yi (i + 1) m - diferencias_divididas xi yi i m =
        (lagPoly xi yi i (m + 1)).coeff (m + 1) * (nth xi (i + m + 1) - nth xi i) := by
      have h3 := congrArg (fun p => Polynomial.coeff p m) hsub
      simp only [Polynomial.coeff_sub, Polynomial.coeff_C_mul, hMcoeff, mul_one] at h3
      rw [hIH1.1, hIH2.1] at h3
      exact h3
    have hΔ : nth xi (i + m + 1) - nth xi i ≠ 0 :=
      sub_ne_zero.2 (hd (i + m + 1) (by omega) i (by omega) (by omega))
    have hcc : (lagPoly xi yi i (m + 1)).coeff (m + 1) =
        diferencias_divididas xi yi i (m + 1) := by
      have e4 : i + (m + 1) = i + m + 1 := by omega
      have hdd : diferencias_divididas xi yi i (m + 1) =
          (diferencias_divididas xi yi (i + 1) m - diferencias_divididas xi yi i m) /
            (nth xi (i + m + 1) - nth xi i) := by
        simp only [diferencias_divididas]
        rw [e4, if_pos (by omega)]
      rw [hdd, hkey, mul_div_cancel_right₀ _ hΔ]
    refine ⟨hcc, ?_⟩
    have hNd_range : (∏ k ∈ Finset.range (m + 1),
        (Polynomial.X - Polynomial.C (nth xi (i + k)))) =
        Lagrange.nodal (Finset.Ico i (i + m + 1)) (nth xi) := by
      rw [Lagrange.nodal_eq, Finset.prod_Ico_eq_prod_range]
      have e3 : i + m + 1 - i = m + 1 := by omega
      rw [e3]
    have hsum : (∑ j ∈ Finset.range (m + 1),
        Polynomial.C (diferencias_divididas xi yi i j) *
          ∏ k ∈ Finset.range j, (Polynomial.X - Polynomial.C (nth xi (i + k)))) =
        newtonPoly xi yi i m := rfl
    rw [newtonPoly, Finset.sum_range_succ, hsum, hIH1.2, hNd_range, ← hcc]
    exact hdl.symm

/-- `newton_interpolation` is the evaluation of the Newton-form polynomial
of the full node list. -/
lemma newton_interpolation_eval (xi yi : List ℚ) (hn : 1 ≤ xi.length) (x : ℚ) :
    newton_interpolation xi yi x = (newtonPoly xi yi 0 (xi.length - 1)).eval x := by
  rw [newton_interpolation, newtonPoly]
  have e : xi.length - 1 + 1 = xi.length := by omega
  rw [e, Polynomial.eval_finset_sum]
  apply Finset.sum_congr rfl
  intro j hj
  rw [Polynomial.eval_mul, Polynomial.eval_C, Polynomial.eval_prod]
  congr 1
  apply Finset.prod_congr rfl
  intro k hk
  rw [Polynomial.eval_sub, Polynomial.eval_X, Polynomial.eval_C, Nat.zero_add]

/-- `lagrange_interpolation` is the evaluation of Mathlib's Lagrange
interpolant of the full node list. -/
lemma lagrange_interpolation_eval (xi yi : List ℚ) (hd : DistinctNodes xi) (x : ℚ) :
    lagrange_interpolation xi yi x =
      (Lagrange.interpolate (Finset.range xi.length) (nth xi) (nth yi)).eval x := by
  rw [Lagrange.interpolate_apply, Polynomial.eval_finset_sum, lagrange_interpolation]
  apply Finset.sum_congr rfl
  intro i hi
  rw [Polynomial.eval_mul, Polynomial.eval_C]
  congr 1
  rw [Lagrange.basis, Polynomial.eval_prod, lagrange_basis]
  rw [show (Finset.range xi.length).erase i =
    (Finset.range xi.length).filter (fun j => j ≠ i) from (Finset.filter_ne' _ _).symm,
    Finset.prod_filter]
  apply Finset.prod_congr rfl
  intro j hj
  by_cases h : j = i
  · simp [h]
  · rw [if_pos h, if_pos h, Lagrange.basisDivisor, Polynomial.eval_mul, Polynomial.eval_C,
      Polynomial.eval_sub, Polynomial.eval_X, Polynomial.eval_C, div_eq_mul_inv, mul_comm]

/-- Newton's and Lagrange's evaluations agree everywhere (both are the
unique interpolating polynomial). -/
lemma newton_eq_lagrange (xi yi : List ℚ) (hd : DistinctNodes xi) (x : ℚ) :
    newton_interpolation xi yi x = lagrange_interpolation xi yi x := by
  rcases Nat.eq_zero_or_pos xi.length with h0 | h1
  · rw [newton_interpolation, lagrange_interpolation, h0]
    simp
  · rw [newton_interpolation_eval xi yi h1 x, lagrange_interpolation_eval xi yi hd x]
    have h2 := (lag_newton_main xi yi hd (xi.length - 1) 0 (by omega)).2
    have e : Finset.Ico 0 (0 + (xi.length - 1) + 1) = Finset.range xi.length := by
      rw [Finset.range_eq_Ico]
      congr 1
      omega
    rw [h2, lagPoly, e]

/-- Lagrange interpolation reproduces its samples at the nodes. -/
lemma lagrange_exact (xi yi : List ℚ) (hd : DistinctNodes xi) (k : ℕ)
    (hk : k < xi.length) :
    lagrange_interpolation xi yi (nth xi k) = nth yi k := by
  rw [lagrange_interpolation_eval xi yi hd]
  exact Lagrange.eval_interpolate_at_node (nth yi)
    (injOn_nth xi hd _ (fun t ht => Finset.mem_range.1 ht)) (Finset.mem_range.2 hk)

/-- `np.searchsorted` at a node of a strictly ascending array returns the
node's index. -/
lemma searchsorted_at_node (xi : List ℚ) (hasc : AscNodes xi) (k : ℕ)
    (hk : k < xi.length) :
    searchsorted xi (nth xi k) = k := by
  rw [searchsorted]
  have e : (Finset.range xi.length).filter (fun i => nth xi i < nth xi k) =
      Finset.range k := by
    ext t
    simp only [Finset.mem_filter, Finset.mem_range]
    constructor
    · rintro ⟨ht, hlt⟩
      by_contra hge
      push_neg at hge
      rcases eq_or_lt_of_le hge with he | hlt2
      · rw [he] at hlt
        exact lt_irrefl _ hlt
      · exact absurd (lt_trans hlt (hasc k hk t ht hlt2)) (lt_irrefl _)
    · intro ht
      exact ⟨lt_trans ht hk, hasc t (lt_trans ht hk) k hk ht⟩
  rw [e, Finset.card_range]

/-- The built spline evaluates to `yi[k]` at every node `xi[k]`, for any
solved `c` vector: the `a`, `b`, `d` coefficient formulas interpolate by
construction. -/
lemma spline_node_exact (xi yi : List ℚ) (c : ℕ → ℚ) (hasc : AscNodes xi)
    (hn : 2 ≤ xi.length) (k : ℕ) (hk : k < xi.length) :
    evalSplineAt xi (xi.length - 1) (spline_coef xi yi c) (nth xi k) = nth yi k := by
  rcases Nat.eq_zero_or_pos k with rfl | hk1
  · rw [evalSplineAt, findSegment_left (le_refl _), sub_self, segEval_zero]
    rfl
  · rcases eq_or_lt_of_le (show k + 1 ≤ xi.length from hk) with hlast | hmid
    · have e1 : k = xi.length - 1 := by omega
      have h01 : nth xi 0 < nth xi (xi.length - 1) := hasc 0 (by omega) _ (by omega) (by omega)
      rw [evalSplineAt, e1, findSegment_right h01 (le_refl _)]
      have e2 : xi.length - 2 + 1 = xi.length - 1 := by omega
      have hdx : nth xi (xi.length - 1) - nth xi (xi.length - 2) =
          hdiff xi (xi.length - 2) := by
        rw [hdiff, e2]
      have hne : hdiff xi (xi.length - 2) ≠ 0 := by
        rw [hdiff, e2]
        exact sub_ne_zero.2 (ne_of_gt (hasc _ (by omega) _ (by omega) (by omega)))
      rw [hdx, segEval_right xi yi c _ hne, e2]
    · have hlo : nth xi 0 < nth xi k := hasc 0 (by omega) k hk hk1
      have hhi : nth xi k < nth xi (xi.length - 1) := hasc k hk _ (by omega) (by omega)
      rw [evalSplineAt, findSegment, if_neg (not_le.2 hlo), if_neg (not_le.2 hhi),
        searchsorted_at_node xi hasc k hk]
      have e5 : min (k - 1) (xi.length - 1 - 1) = k - 1 := by
        apply min_eq_left
        omega
      rw [e5]
      have e6 : k - 1 + 1 = k := by omega
      have hdx : nth xi k - nth xi (k - 1) = hdiff xi (k - 1) := by
        rw [hdiff, e6]
      have hne : hdiff xi (k - 1) ≠ 0 := by
        rw [hdiff, e6]
        exact sub_ne_zero.2 (ne_of_gt (hasc _ (by omega) _ (by omega) (by omega)))
      rw [hdx, segEval_right xi yi c _ hne, e6]

/-! ## Claim C4 -/

/-- C4: for every sample set with pairwise-distinct nodes and every query
point `x`, Newton divided-difference interpolation and Lagrange
interpolation agree (both compute the unique degree-`(n-1)` interpolating
polynomial; agreement is exact in the rational model of floats). -/
theorem C4_newton_lagrange_equivalence (xi yi : List ℚ)
    (hd : DistinctNodes xi) (hlen : yi.length = xi.length) (x : ℚ) :
    newton_interpolation xi yi x = lagrange_interpolation xi yi x :=
  newton_eq_lagrange xi yi hd x

/-- Witness for C4 at a concrete input. -/
theorem C4_witness :
    newton_interpolation [0, 1, 2] [1, 2, 3] (1/2) =
      lagrange_interpolation [0, 1, 2] [1, 2, 3] (1/2) :=
  C4_newton_lagrange_equivalence [0, 1, 2] [1, 2, 3] (by decide) rfl (1/2)

/-! ## Claim C1 -/

/-- C1: with pairwise-distinct (ascending) nodes, evaluating each fitted
model at node `xi[k]` returns `yi[k]`: Lagrange, Newton, and the natural
cubic spline (whose evaluator wraps the value in a length-1 array). -/
theorem C1_interpolation_exactness (xi yi : List ℚ) (c : ℕ → ℚ)
    (hasc : AscNodes xi) (hlen : yi.length = xi.length) (hn : 2 ≤ xi.length)
    (hnat : solvesNatural xi yi c) :
    ∀ k < xi.length,
      lagrange_interpolation xi yi (nth xi k) = nth yi k ∧
      newton_interpolation xi yi (nth xi k) = nth yi k ∧
      evaluar_trazadores_cubicos xi (xi.length - 1)
        (trazadores_cubicos_naturales xi yi c) (.pyFloat (nth xi k)) =
          .arr [nth yi k] := by
  intro k hk
  have hd := asc_distinct hasc
  refine ⟨lagrange_exact xi yi hd k hk, ?_, ?_⟩
  · rw [newton_eq_lagrange xi yi hd]
    exact lagrange_exact xi yi hd k hk
  · show PyRet.arr [evalSplineAt xi (xi.length - 1) (spline_coef xi yi c) (nth xi k)] = _
    rw [spline_node_exact xi yi c hasc hn k hk]

/-- Witness for C1 at a concrete input. -/
theorem C1_witness :
    lagrange_interpolation [0, 1, 2] [1, 2, 3] 1 = 2 ∧
    newton_interpolation [0, 1, 2] [1, 2, 3] 1 = 2 ∧
    evaluar_trazadores_cubicos [0, 1, 2] 2
      (trazadores_cubicos_naturales [0, 1, 2] [1, 2, 3] (fun _ => 0))
      (.pyFloat 1) = .arr [2] := by
  have h := C1_interpolation_exactness [0, 1, 2] [1, 2, 3] (fun _ => 0) (by decide) rfl
    (by norm_num)
    (by
      refine ⟨rfl, rfl, fun i hi h1 h2 => ?_⟩
      simp only [List.length_cons, List.length_nil] at h2
      have h3 : i = 1 := by omega
      subst h3
      norm_num [hdiff, nth])
    1 (by norm_num)
  exact h

end SCDS

